import Mathlib

/-!
# Verification of the memoizing cache decorator

Shallow embedding of the caching call wrapper of
`src/exercises/decorators_e005.py` (`CacheDecorator`) and of the caching
wrapper produced by `DecoratorChain.with_caching` in
`src/exercises/decorators_e010.py`, together with proofs of the spec's
claims about them.

Modelling conventions:
* Argument values are drawn from an abstract type `V` with decidable
  equality; every value of `V` plays the role of a hashable Python value
  (the claims under study restrict themselves to hashable arguments).
* The wrapped computation is modelled as a function from the canonical
  bound-argument list to `Except E V`: `Except.error e` models the Python
  function raising exception `e`, `Except.ok v` a normal return.  A pure
  computation is one of the form `fun k => Except.ok (g k)`.
* Python's `dict` preserves insertion order, so the cache store is an
  association list in insertion order; `next(iter(cache))` is its head.
* `inspect.Signature.bind` + `apply_defaults` for plain
  positional-or-keyword parameters (the only kind appearing in the
  exercises) is modelled by `bindCall`.  Python's various binding
  `TypeError`s are modelled by the constructors of `BindError`; the
  claims only distinguish binding failure from success, never which
  binding error fires first.
-/

set_option autoImplicit false
set_option linter.unusedSectionVars false

namespace CacheDec

variable {V E : Type} [DecidableEq V]

/-- One declared parameter of the wrapped computation: a name and an
optional default value (`inspect.Parameter` restricted to
positional-or-keyword parameters). -/
structure Param (V : Type) where
  name : String
  default : Option V
deriving Repr, DecidableEq

/-- The cache key built by `CacheDecorator._make_cache_key`: the tuple of
`(parameter name, bound value)` pairs in parameter declaration order,
after `apply_defaults`. -/
abbrev CacheKey (V : Type) := List (String × V)

/-- The ways `Signature.bind` can fail (Python raises `TypeError`; the
spec's error taxonomy calls this class of failures `BindingError`). -/
inductive BindError where
  | tooManyPositional
  | unknownKeyword (k : String)
  | duplicateBinding (k : String)
  | missingRequired (k : String)
deriving Repr, DecidableEq

/-- Assign positional arguments to parameters left to right; fails when
there are more positional arguments than declared parameters. -/
def posBind : List (Param V) → List V → Except BindError (List (String × V))
  | _, [] => .ok []
  | [], _ :: _ => .error .tooManyPositional
  | p :: ps, a :: rest => (posBind ps rest).map (fun r => (p.name, a) :: r)

/-- Merge keyword arguments into the assignment built so far; fails on a
keyword that names no parameter or one already assigned. -/
def kwBind (params : List (Param V)) :
    List (String × V) → List (String × V) → Except BindError (List (String × V))
  | bound, [] => .ok bound
  | bound, (k, v) :: rest =>
      if k ∈ params.map Param.name then
        if k ∈ bound.map Prod.fst then .error (.duplicateBinding k)
        else kwBind params (bound ++ [(k, v)]) rest
      else .error (.unknownKeyword k)

/-- Look up a name in an assignment list (first match). -/
def lookupName (k : String) : List (String × V) → Option V
  | [] => none
  | (k2, v) :: rest => if k2 = k then some v else lookupName k rest

/-- Produce the `bound_args.arguments` items in parameter declaration
order, filling unassigned parameters from their defaults
(`apply_defaults`); fails when a required parameter is unassigned. -/
def finalize (asg : List (String × V)) : List (Param V) → Except BindError (CacheKey V)
  | [] => .ok []
  | p :: ps =>
      match (lookupName p.name asg).orElse (fun _ => p.default) with
      | some v => (finalize asg ps).map (fun r => (p.name, v) :: r)
      | none => .error (.missingRequired p.name)

/-- `self.sig.bind(*args, **kwargs)` followed by `apply_defaults()` and
the key tuple construction of `_make_cache_key`: the canonical cache key
of a call, or a binding error. -/
def bindCall (params : List (Param V)) (args : List V) (kwargs : List (String × V)) :
    Except BindError (CacheKey V) := do
  let pos ← posBind params args
  let asg ← kwBind params pos kwargs
  finalize asg params

/-- The mutable per-decorator state of `CacheDecorator`: the
insertion-ordered store `self.cache`, the configured `self.max_cache_size`
(a Python `int`, possibly non-positive), and the two counters of
`self.cache_hits_miss`. -/
structure CacheState (V : Type) where
  cache : List (CacheKey V × V)
  maxCacheSize : Int
  hits : Nat
  misses : Nat
deriving Repr, DecidableEq

/-- The state right after `CacheDecorator.__init__(func, max_cache_size)`:
empty store, zeroed counters (the source's default capacity is 128). -/
def initState (maxCacheSize : Int) : CacheState V :=
  { cache := [], maxCacheSize := maxCacheSize, hits := 0, misses := 0 }

/-- Python-dict lookup `self.cache[key]` / `key in self.cache` on the
insertion-ordered store. -/
def dictGet (k : CacheKey V) : List (CacheKey V × V) → Option V
  | [] => none
  | (k2, v) :: rest => if k2 = k then some v else dictGet k rest

/-- Everything a single pass through `__call__` can raise. -/
inductive CallError (E : Type) where
  | binding (e : BindError)
  | func (e : E)
  | stopIteration
  | unboundLocal
deriving Repr, DecidableEq

/-- The outcome of one call through a caching wrapper: the value returned
or exception raised, the decorator state afterwards, and whether the
wrapped computation was invoked during the call. -/
structure CallResult (V E : Type) where
  result : Except (CallError E) V
  state : CacheState V
  invoked : Bool
deriving Repr

/-- `CacheDecorator.__call__` of `decorators_e005.py`:
derive the key (propagating binding errors untouched); on a hit bump the
hit counter and return the stored result; on a miss bump the miss
counter, invoke the computation (propagating its exception untouched),
evict the oldest entry when the store is at or above capacity
(`next(iter({}))` on an empty store raises `StopIteration`), store the
result and return it. -/
def callE005 (f : CacheKey V → Except E V) (params : List (Param V))
    (st : CacheState V) (args : List V) (kwargs : List (String × V)) :
    CallResult V E :=
  match bindCall params args kwargs with
  | .error e => ⟨.error (.binding e), st, false⟩
  | .ok key =>
      match dictGet key st.cache with
      | some r => ⟨.ok r, { st with hits := st.hits + 1 }, false⟩
      | none =>
          let st1 := { st with misses := st.misses + 1 }
          match f key with
          | .error e => ⟨.error (.func e), st1, true⟩
          | .ok result =>
              if (st1.cache.length : Int) ≥ st1.maxCacheSize then
                match st1.cache with
                | [] => ⟨.error .stopIteration, st1, true⟩
                | _ :: rest =>
                    ⟨.ok result, { st1 with cache := rest ++ [(key, result)] }, true⟩
              else ⟨.ok result, { st1 with cache := st1.cache ++ [(key, result)] }, true⟩

/-- `CacheDecorator.clear_cache`: empty the store and zero both
counters. -/
def clearCache (st : CacheState V) : CacheState V :=
  { st with cache := [], hits := 0, misses := 0 }

/-- The numeric content of the dict returned by
`CacheDecorator.get_cache_stats`.  The source formats `hitRate` as a
one-decimal percent string (`f"{hit_rate:.1f}%"`); the model keeps the
exact rational value that is formatted. -/
structure CacheStats where
  cacheSize : Nat
  maxCacheSize : Int
  cacheHits : Nat
  cacheMisses : Nat
  totalRequests : Nat
  hitRate : ℚ
deriving Repr, DecidableEq

/-- `CacheDecorator.get_cache_stats`. -/
def getCacheStats (st : CacheState V) : CacheStats :=
  let total := st.hits + st.misses
  { cacheSize := st.cache.length
    maxCacheSize := st.maxCacheSize
    cacheHits := st.hits
    cacheMisses := st.misses
    totalRequests := total
    hitRate := if total > 0 then (st.hits : ℚ) / (total : ℚ) * 100 else 0 }

/-- The caching `wrapper` produced by `DecoratorChain.with_caching` in
`decorators_e010.py`.  It differs from `callE005` in the miss path: the
computation is invoked inside `try:`, and a `finally:` block performs the
eviction and the store `self.cache[cache_key] = result`.  When the
computation raises, the `finally:` still runs: the eviction happens (the
oldest entry is popped when the store is at capacity), and the store then
reads the local `result`, which was never assigned — Python raises
`UnboundLocalError`, replacing the in-flight exception. -/
def callE010 (f : CacheKey V → Except E V) (params : List (Param V))
    (st : CacheState V) (args : List V) (kwargs : List (String × V)) :
    CallResult V E :=
  match bindCall params args kwargs with
  | .error e => ⟨.error (.binding e), st, false⟩
  | .ok key =>
      match dictGet key st.cache with
      | some r => ⟨.ok r, { st with hits := st.hits + 1 }, false⟩
      | none =>
          let st1 := { st with misses := st.misses + 1 }
          match f key with
          | .ok result =>
              if (st1.cache.length : Int) ≥ st1.maxCacheSize then
                match st1.cache with
                | [] => ⟨.error .stopIteration, st1, true⟩
                | _ :: rest =>
                    ⟨.ok result, { st1 with cache := rest ++ [(key, result)] }, true⟩
              else ⟨.ok result, { st1 with cache := st1.cache ++ [(key, result)] }, true⟩
          | .error _ =>
              if (st1.cache.length : Int) ≥ st1.maxCacheSize then
                match st1.cache with
                | [] => ⟨.error .stopIteration, st1, true⟩
                | _ :: rest => ⟨.error .unboundLocal, { st1 with cache := rest }, true⟩
              else ⟨.error .unboundLocal, st1, true⟩

/-- Run a sequence of calls through `CacheDecorator.__call__`, threading
the state; each list element is the `(args, kwargs)` of one call. -/
def runCalls (f : CacheKey V → Except E V) (params : List (Param V)) :
    CacheState V → List (List V × List (String × V)) → CacheState V
  | st, [] => st
  | st, (args, kwargs) :: rest => runCalls f params (callE005 f params st args kwargs).state rest

/-- An operation against the decorator: a call through the wrapper or a
`clear_cache()`. -/
inductive CacheOp (V : Type) where
  | call (args : List V) (kwargs : List (String × V))
  | clear

/-- Run a sequence of operations (calls and cache clears), threading the
state. -/
def runOps (f : CacheKey V → Except E V) (params : List (Param V)) :
    CacheState V → List (CacheOp V) → CacheState V
  | st, [] => st
  | st, .call args kwargs :: rest => runOps f params (callE005 f params st args kwargs).state rest
  | st, .clear :: rest => runOps f params (clearCache st) rest

/-- Modelled from the spec (§4.3, §8): calling the pure computation `g`
directly on the effective bound arguments of the call — the reference
behaviour a cached call must refine. -/
def specDirectCall (g : CacheKey V → V) (params : List (Param V))
    (args : List V) (kwargs : List (String × V)) : Except (CallError E) V :=
  match bindCall params args kwargs with
  | .ok key => .ok (g key)
  | .error e => .error (.binding e)

/-- The eviction step of the miss path, factored out for proofs:
`self.cache.pop(next(iter(self.cache)))` fires exactly when the store is
at (or above) capacity, removing the oldest (first-inserted) entry. -/
def evictIfFull (maxSize : Int) (cache : List (CacheKey V × V)) :
    List (CacheKey V × V) :=
  if (cache.length : Int) ≥ maxSize then cache.tail else cache

/-- Whether a call's arguments bind to the declared parameters. -/
def bindsOk (params : List (Param V)) (c : List V × List (String × V)) : Bool :=
  match bindCall params c.1 c.2 with
  | .ok _ => true
  | .error _ => false

/-- A pure computation `g` viewed as a wrapped computation that never
raises (with exception type `E`). -/
def pureFun (E : Type) (g : CacheKey V → V) : CacheKey V → Except E V :=
  fun k => Except.ok (g k)

/-- Every stored result agrees with the pure computation on its key: the
store invariant maintained by the wrapper for a pure computation. -/
def Coherent (g : CacheKey V → V) (st : CacheState V) : Prop :=
  ∀ p ∈ st.cache, p.2 = g p.1

/-- The spec's worked example: `square(x) = x * x` over integers. -/
def squareParams : List (Param Int) := [⟨"x", none⟩]

/-- `square` as a pure function of the canonical bound arguments. -/
def squarePure : CacheKey Int → Int
  | [(_, x)] => x * x
  | _ => 0

/-- `square` as a wrapped computation (never raises). -/
def squareFun : CacheKey Int → Except Unit Int := pureFun Unit squarePure

/-- The spec's keyword-binding example: `add(a, b=10)` over integers. -/
def addParams : List (Param Int) := [⟨"a", none⟩, ⟨"b", some 10⟩]

/-- `add(a, b=10)` as a pure function of the canonical bound arguments. -/
def addPure : CacheKey Int → Int
  | [(_, a), (_, b)] => a + b
  | _ => 0

/-- A wrapped computation that always raises; the exception is modelled
by the number `42`. -/
def boomFun : CacheKey Int → Except Nat Int := fun _ => Except.error 42

/-! ## Helper lemmas about the store and a single pass through `__call__` -/

theorem dictGet_append_single {k : CacheKey V} {v : V} :
    ∀ {l : List (CacheKey V × V)}, dictGet k l = none →
      dictGet k (l ++ [(k, v)]) = some v := by
  intro l
  induction l with
  | nil => intro _; simp [dictGet]
  | cons p rest ih =>
      obtain ⟨k2, v2⟩ := p
      intro h
      by_cases hk : k2 = k
      · simp [dictGet, hk] at h
      · simp only [dictGet, hk, if_false, List.cons_append] at h ⊢
        simpa [dictGet, hk] using ih h

theorem dictGet_tail_none {k : CacheKey V} {l : List (CacheKey V × V)}
    (h : dictGet k l = none) : dictGet k l.tail = none := by
  cases l with
  | nil => simpa using h
  | cons p rest =>
      obtain ⟨k2, v2⟩ := p
      by_cases hk : k2 = k
      · simp [dictGet, hk] at h
      · simpa [dictGet, hk] using h

theorem dictGet_evictIfFull_none {maxSize : Int} {k : CacheKey V}
    {l : List (CacheKey V × V)} (h : dictGet k l = none) :
    dictGet k (evictIfFull maxSize l) = none := by
  unfold evictIfFull
  split
  · exact dictGet_tail_none h
  · exact h

theorem dictGet_some_mem {k : CacheKey V} {v : V} :
    ∀ {l : List (CacheKey V × V)}, dictGet k l = some v → (k, v) ∈ l := by
  intro l
  induction l with
  | nil => intro h; simp [dictGet] at h
  | cons p rest ih =>
      obtain ⟨k2, v2⟩ := p
      intro h
      by_cases hk : k2 = k
      · simp only [dictGet, hk, if_pos] at h
        subst hk
        simp [Option.some.injEq] at h
        simp [h]
      · simp only [dictGet, hk, if_false] at h
        exact List.mem_cons_of_mem _ (ih h)

theorem dictGet_map_of_not_mem (g : CacheKey V → V) {k : CacheKey V}
    {ks : List (CacheKey V)} (h : k ∉ ks) :
    dictGet k (ks.map (fun k2 => (k2, g k2))) = none := by
  induction ks with
  | nil => simp [dictGet]
  | cons k2 rest ih =>
      have hne : k2 ≠ k := fun hk => h (hk ▸ List.mem_cons_self k2 rest)
      have hrest : k ∉ rest := fun hk => h (List.mem_cons_of_mem _ hk)
      simpa [dictGet, hne] using ih hrest

theorem callE005_bindError (f : CacheKey V → Except E V) (params : List (Param V))
    (st : CacheState V) (args : List V) (kwargs : List (String × V)) {e : BindError}
    (h : bindCall params args kwargs = .error e) :
    callE005 f params st args kwargs = ⟨.error (.binding e), st, false⟩ := by
  simp [callE005, h]

theorem callE005_hit (f : CacheKey V → Except E V) (params : List (Param V))
    (st : CacheState V) (args : List V) (kwargs : List (String × V))
    {key : CacheKey V} {r : V}
    (h : bindCall params args kwargs = .ok key)
    (h2 : dictGet key st.cache = some r) :
    callE005 f params st args kwargs = ⟨.ok r, { st with hits := st.hits + 1 }, false⟩ := by
  simp [callE005, h, h2]

theorem callE005_miss_raise (f : CacheKey V → Except E V) (params : List (Param V))
    (st : CacheState V) (args : List V) (kwargs : List (String × V))
    {key : CacheKey V} {e : E}
    (h : bindCall params args kwargs = .ok key)
    (h2 : dictGet key st.cache = none)
    (h3 : f key = .error e) :
    callE005 f params st args kwargs
      = ⟨.error (.func e), { st with misses := st.misses + 1 }, true⟩ := by
  simp [callE005, h, h2, h3]

theorem callE005_miss_store (f : CacheKey V → Except E V) (params : List (Param V))
    (st : CacheState V) (args : List V) (kwargs : List (String × V))
    {key : CacheKey V} {v : V}
    (h : bindCall params args kwargs = .ok key)
    (h2 : dictGet key st.cache = none)
    (h3 : f key = .ok v)
    (hcap : 1 ≤ st.maxCacheSize) :
    callE005 f params st args kwargs
      = ⟨.ok v,
         { st with
            misses := st.misses + 1
            cache := evictIfFull st.maxCacheSize st.cache ++ [(key, v)] },
         true⟩ := by
  simp only [callE005, h, h2, h3]
  by_cases hfull : (st.cache.length : Int) ≥ st.maxCacheSize
  · cases hc : st.cache with
    | nil =>
        exfalso
        rw [hc] at hfull
        simp at hfull
        omega
    | cons p rest =>
        simp [evictIfFull, hfull]
        split <;> simp_all
  · simp [evictIfFull, hfull]

theorem callE005_max_eq (f : CacheKey V → Except E V) (params : List (Param V))
    (st : CacheState V) (args : List V) (kwargs : List (String × V)) :
    (callE005 f params st args kwargs).state.maxCacheSize = st.maxCacheSize := by
  simp only [callE005]
  repeat' split
  all_goals rfl

theorem runCalls_max_eq (f : CacheKey V → Except E V) (params : List (Param V)) :
    ∀ (calls : List (List V × List (String × V))) (st : CacheState V),
      (runCalls f params st calls).maxCacheSize = st.maxCacheSize := by
  intro calls
  induction calls with
  | nil => intro st; rfl
  | cons c rest ih =>
      intro st
      obtain ⟨args, kwargs⟩ := c
      rw [runCalls, ih, callE005_max_eq]

theorem callE005_miss_empty_overflow (f : CacheKey V → Except E V)
    (params : List (Param V)) (st : CacheState V) (args : List V)
    (kwargs : List (String × V)) {key : CacheKey V} {v : V}
    (h : bindCall params args kwargs = .ok key)
    (h3 : f key = .ok v)
    (hempty : st.cache = [])
    (hmax : st.maxCacheSize ≤ 0) :
    callE005 f params st args kwargs
      = ⟨.error .stopIteration, { st with misses := st.misses + 1 }, true⟩ := by
  simp only [callE005, h, h3, hempty]
  simp [dictGet, hmax]

theorem callE005_counter_bindOk (f : CacheKey V → Except E V) (params : List (Param V))
    (st : CacheState V) (args : List V) (kwargs : List (String × V)) {key : CacheKey V}
    (h : bindCall params args kwargs = .ok key) :
    (callE005 f params st args kwargs).state.hits
        + (callE005 f params st args kwargs).state.misses
      = st.hits + st.misses + 1 := by
  rcases hd : dictGet key st.cache with _ | r
  · rcases hf : f key with e | v
    · rw [callE005_miss_raise f params st args kwargs h hd hf]
      simp
      omega
    · simp only [callE005, h, hd, hf]
      repeat' split
      all_goals simp
      all_goals omega
  · rw [callE005_hit f params st args kwargs h hd]
    simp
    omega

/-! ## The claims -/

/-- Claim C7: when the positional and keyword arguments cannot bind to the
declared parameter list, the call fails with the binding error propagated
immediately, the wrapped computation is not invoked, and the decorator
state — store and both counters — is left completely unchanged. -/
theorem c7_binding_failure_changes_nothing (f : CacheKey V → Except E V)
    (params : List (Param V)) (st : CacheState V) (args : List V)
    (kwargs : List (String × V)) (e : BindError)
    (h : bindCall params args kwargs = .error e) :
    (callE005 f params st args kwargs).result = .error (.binding e) ∧
    (callE005 f params st args kwargs).state = st ∧
    (callE005 f params st args kwargs).invoked = false := by
  rw [callE005_bindError f params st args kwargs h]
  exact ⟨rfl, rfl, rfl⟩

/-- Witness for C7 at a concrete input: calling `square` with no
arguments fails to bind (missing required argument `x`) and leaves the
fresh decorator state untouched. -/
theorem c7_witness :
    bindCall squareParams ([] : List Int) [] = .error (.missingRequired "x") ∧
    ((callE005 squareFun squareParams (initState 128) [] []).result
        = .error (.binding (.missingRequired "x")) ∧
      (callE005 squareFun squareParams (initState 128) [] []).state = initState 128 ∧
      (callE005 squareFun squareParams (initState 128) [] []).invoked = false) :=
  ⟨rfl, c7_binding_failure_changes_nothing squareFun squareParams (initState 128) [] []
    (.missingRequired "x") rfl⟩

/-- Claim C10: on a miss the miss counter is incremented before the
wrapped computation is invoked, so when the computation raises, the
exception propagates unmodified, nothing is stored, and the miss counter
is nevertheless one greater than before the call — the counters count
attempted invocations, not successful ones. -/
theorem c10_miss_counted_even_when_computation_raises
    (f : CacheKey V → Except E V) (params : List (Param V)) (st : CacheState V)
    (args : List V) (kwargs : List (String × V)) (key : CacheKey V) (e : E)
    (h : bindCall params args kwargs = .ok key)
    (h2 : dictGet key st.cache = none)
    (h3 : f key = .error e) :
    callE005 f params st args kwargs
      = ⟨.error (.func e), { st with misses := st.misses + 1 }, true⟩ :=
  callE005_miss_raise f params st args kwargs h h2 h3

/-- Witness for C10 at a concrete input: a raising computation leaves the
store empty but the miss counter incremented, and its exception (42)
propagates. -/
theorem c10_witness :
    callE005 boomFun squareParams (initState 128) [7] []
      = ⟨.error (.func 42),
         { (initState 128 : CacheState Int) with
            misses := (initState 128 : CacheState Int).misses + 1 },
         true⟩ :=
  c10_miss_counted_even_when_computation_raises boomFun squareParams (initState 128)
    [7] [] [("x", 7)] 42 rfl rfl rfl

/-- Claim C3 (code bug): `decorators_e005` propagates a computation's
exception unmodified with nothing stored, exactly as the spec requires;
but the `decorators_e010` caching wrapper's `finally:` block references
the local `result`, unassigned when the computation raised, so the
original exception (42) is replaced by an `UnboundLocalError` — and when
the store is full the `finally:` block has already evicted the oldest
entry before the error fires. -/
theorem c3_exception_divergence_e005_vs_e010 :
    callE005 boomFun squareParams (initState 128) [7] []
      = ⟨.error (.func 42), ⟨[], 128, 0, 1⟩, true⟩ ∧
    callE010 boomFun squareParams (initState 128) [7] []
      = ⟨.error .unboundLocal, ⟨[], 128, 0, 1⟩, true⟩ ∧
    (callE010 boomFun squareParams ⟨[([("x", 2)], 4)], 1, 0, 0⟩ [7] []).state.cache
      = [] :=
  ⟨rfl, rfl, rfl⟩

/-- Claim C4 counterexample: with `max_cache_size = 0`, calling
`square(2)` does not return the computed result 4 — the eviction step
executes `next(iter({}))` on the empty store and the call raises
`StopIteration`. -/
theorem c4_counterexample :
    (callE005 squareFun squareParams (initState 0) [2] []).result
        = .error .stopIteration ∧
    (callE005 squareFun squareParams (initState 0) [2] []).result ≠ .ok 4 := by
  refine ⟨rfl, ?_⟩
  intro hcontra
  have h : (callE005 squareFun squareParams (initState 0) [2] []).result
      = Except.error CallError.stopIteration := rfl
  rw [h] at hcontra
  exact Except.noConfusion hcontra

/-- Claim C4 (amended): with `max_cache_size ≤ 0` no call through the
wrapper ever returns normally: a call either fails binding, or is counted
a miss, invokes the computation, and then raises — `StopIteration` from
the empty-store eviction when the computation returned, or the
computation's own exception; the store remains empty after every call. -/
theorem c4_amended_nonpositive_capacity_call_raises
    (f : CacheKey V → Except E V) (params : List (Param V)) (st : CacheState V)
    (args : List V) (kwargs : List (String × V))
    (hmax : st.maxCacheSize ≤ 0) (hempty : st.cache = []) :
    (∀ v, (callE005 f params st args kwargs).result ≠ .ok v) ∧
    (callE005 f params st args kwargs).state.cache = [] ∧
    (∀ key, bindCall params args kwargs = .ok key →
      (callE005 f params st args kwargs).state.misses = st.misses + 1) := by
  rcases hb : bindCall params args kwargs with e | key
  · rw [callE005_bindError f params st args kwargs hb]
    exact ⟨fun v hv => Except.noConfusion hv, hempty, fun key hk => by simp at hk⟩
  · have hd : dictGet key st.cache = none := by rw [hempty]; rfl
    rcases hf : f key with e | v
    · rw [callE005_miss_raise f params st args kwargs hb hd hf]
      exact ⟨fun v hv => Except.noConfusion hv, hempty, fun _ _ => rfl⟩
    · rw [callE005_miss_empty_overflow f params st args kwargs hb hf hempty hmax]
      exact ⟨fun v hv => Except.noConfusion hv, hempty, fun _ _ => rfl⟩

/-- Witness for the amended C4 at a concrete input: capacity 0, a fresh
decorator, one `square(2)` call. -/
theorem c4_amended_witness :
    (∀ v, (callE005 squareFun squareParams (initState 0) [2] []).result ≠ .ok v) ∧
    (callE005 squareFun squareParams (initState 0) [2] []).state.cache = [] ∧
    (∀ key, bindCall squareParams [2] [] = .ok key →
      (callE005 squareFun squareParams (initState 0) [2] []).state.misses
        = (initState 0 : CacheState Int).misses + 1) :=
  c4_amended_nonpositive_capacity_call_raises squareFun squareParams (initState 0)
    [2] [] (by norm_num [initState]) rfl

/-- Claim C6 counterexample: one call whose arguments fail to bind
(`square()` with no arguments) increments neither counter, so
`hits + misses = 0` while one call was made — the claimed identity
"hits + misses equals total calls, including binding failures" is false. -/
theorem c6_counterexample :
    (runCalls squareFun squareParams (initState 128) [([], [])]).hits
        + (runCalls squareFun squareParams (initState 128) [([], [])]).misses = 0 ∧
    [(([] : List Int), ([] : List (String × Int)))].length = 1 :=
  ⟨rfl, rfl⟩

/-- Claim C6 (amended): at every point in a sequence of calls (no
intervening `clear_cache`), `hits + misses` equals the number of calls
whose arguments successfully bound to the parameter list; calls whose
binding fails are counted by neither counter, while calls in which the
computation raises are still counted as misses. -/
theorem c6_amended_counters_count_bound_calls (f : CacheKey V → Except E V)
    (params : List (Param V)) :
    ∀ (calls : List (List V × List (String × V))) (st : CacheState V),
      (runCalls f params st calls).hits + (runCalls f params st calls).misses
        = st.hits + st.misses + calls.countP (bindsOk params) := by
  intro calls
  induction calls with
  | nil => intro st; simp [runCalls]
  | cons c rest ih =>
      intro st
      obtain ⟨args, kwargs⟩ := c
      rw [runCalls, ih]
      rcases hb : bindCall params args kwargs with e | key
      · rw [callE005_bindError f params st args kwargs hb]
        simp [List.countP_cons, bindsOk, hb]
      · have hstep := callE005_counter_bindOk f params st args kwargs hb
        simp only [List.countP_cons, bindsOk, hb]
        simp
        omega

/-- Claim C8 counterexample: with one hit and one miss the source
computes `hit_rate = 50` (the percentage `hits/total * 100`, later
formatted as `"50.0%"`), which differs from the claimed `hits/total =
1/2`. -/
theorem c8_counterexample :
    (getCacheStats (⟨[], 128, 1, 1⟩ : CacheState Int)).hitRate = 50 ∧
    (getCacheStats (⟨[], 128, 1, 1⟩ : CacheState Int)).hitRate
      ≠ ((⟨[], 128, 1, 1⟩ : CacheState Int).hits : ℚ)
          / (((⟨[], 128, 1, 1⟩ : CacheState Int).hits : ℚ)
              + ((⟨[], 128, 1, 1⟩ : CacheState Int).misses : ℚ)) := by
  constructor
  · norm_num [getCacheStats]
  · norm_num [getCacheStats]

/-- Claim C8 (amended): the stats accessor reports `hit_rate` equal to
the ratio `hits/total` expressed as a percentage, i.e. `hits/total * 100`
(then formatted to one decimal with a `%` sign), whenever
`total = hits + misses > 0`, and reports the sentinel `0` when
`total = 0`. -/
theorem c8_amended_hit_rate_is_percentage (st : CacheState V) :
    (0 < st.hits + st.misses →
        (getCacheStats st).hitRate
          = (st.hits : ℚ) / ((st.hits : ℚ) + (st.misses : ℚ)) * 100) ∧
    (st.hits + st.misses = 0 → (getCacheStats st).hitRate = 0) := by
  constructor
  · intro h
    simp only [getCacheStats, h, if_pos]
    push_cast
    ring
  · intro h
    simp [getCacheStats, h]

/-- Witness for the amended C8 at concrete states: one hit and one miss
give 50 (percent); a fresh decorator reports 0. -/
theorem c8_amended_witness :
    (getCacheStats (⟨[], 128, 1, 1⟩ : CacheState Int)).hitRate
        = ((⟨[], 128, 1, 1⟩ : CacheState Int).hits : ℚ)
            / (((⟨[], 128, 1, 1⟩ : CacheState Int).hits : ℚ)
                + ((⟨[], 128, 1, 1⟩ : CacheState Int).misses : ℚ)) * 100 ∧
    (getCacheStats (initState 128 : CacheState Int)).hitRate = 0 :=
  ⟨(c8_amended_hit_rate_is_percentage _).1 (by norm_num),
   (c8_amended_hit_rate_is_percentage _).2 rfl⟩

/-- Claim C1: for a pure computation, capacity ≥ 1, and two calls whose
arguments bind to the same effective values — hence, by construction of
`_make_cache_key`, to the same cache key — where that key is not yet
cached, the computation is invoked exactly once across the two calls
(first call yes, second call no), the second call is a hit (the hit
counter ends one above its starting value), and both calls return the
identical result `g key`. -/
theorem c1_second_call_is_cache_hit (E : Type) (g : CacheKey V → V)
    (params : List (Param V)) (st : CacheState V)
    (args1 args2 : List V) (kw1 kw2 : List (String × V)) (key : CacheKey V)
    (h1 : bindCall params args1 kw1 = .ok key)
    (h2 : bindCall params args2 kw2 = .ok key)
    (hmem : dictGet key st.cache = none)
    (hcap : 1 ≤ st.maxCacheSize) :
    (callE005 (pureFun E g) params st args1 kw1).invoked = true ∧
    (callE005 (pureFun E g) params
        (callE005 (pureFun E g) params st args1 kw1).state args2 kw2).invoked
      = false ∧
    (callE005 (pureFun E g) params st args1 kw1).result = .ok (g key) ∧
    (callE005 (pureFun E g) params
        (callE005 (pureFun E g) params st args1 kw1).state args2 kw2).result
      = .ok (g key) ∧
    (callE005 (pureFun E g) params
        (callE005 (pureFun E g) params st args1 kw1).state args2 kw2).state.hits
      = st.hits + 1 := by
  have hf : pureFun E g key = .ok (g key) := rfl
  have hc1 := callE005_miss_store (pureFun E g) params st args1 kw1 h1 hmem hf hcap
  have hget : dictGet key (evictIfFull st.maxCacheSize st.cache ++ [(key, g key)])
      = some (g key) :=
    dictGet_append_single (dictGet_evictIfFull_none hmem)
  have hc2 := callE005_hit (pureFun E g) params
      ⟨evictIfFull st.maxCacheSize st.cache ++ [(key, g key)],
       st.maxCacheSize, st.hits, st.misses + 1⟩ args2 kw2 h2 hget
  rw [hc1]
  refine ⟨rfl, ?_, rfl, ?_, ?_⟩ <;> rw [hc2]

/-- Witness for C1 at a concrete input: the spec's keyword-binding
example `add(a, b=10)` — `add(5)` then `add(a=5, b=10)` bind to the same
key, the second call is a hit, and both return 15. -/
theorem c1_witness :
    (callE005 (pureFun Unit addPure) addParams (initState 128) [5] []).invoked
      = true ∧
    (callE005 (pureFun Unit addPure) addParams
        (callE005 (pureFun Unit addPure) addParams (initState 128) [5] []).state
        [] [("a", 5), ("b", 10)]).invoked = false ∧
    (callE005 (pureFun Unit addPure) addParams (initState 128) [5] []).result
      = .ok 15 ∧
    (callE005 (pureFun Unit addPure) addParams
        (callE005 (pureFun Unit addPure) addParams (initState 128) [5] []).state
        [] [("a", 5), ("b", 10)]).result = .ok 15 ∧
    (callE005 (pureFun Unit addPure) addParams
        (callE005 (pureFun Unit addPure) addParams (initState 128) [5] []).state
        [] [("a", 5), ("b", 10)]).state.hits
      = (initState 128 : CacheState Int).hits + 1 :=
  c1_second_call_is_cache_hit Unit addPure addParams (initState 128)
    [5] [] [] [("a", 5), ("b", 10)] [("a", 5), ("b", 10)] rfl rfl rfl (by decide)

theorem callE005_length_le (f : CacheKey V → Except E V) (params : List (Param V))
    (st : CacheState V) (args : List V) (kwargs : List (String × V))
    (hcap : 1 ≤ st.maxCacheSize)
    (hlen : (st.cache.length : Int) ≤ st.maxCacheSize) :
    ((callE005 f params st args kwargs).state.cache.length : Int)
      ≤ st.maxCacheSize := by
  rcases hb : bindCall params args kwargs with e | key
  · rw [callE005_bindError f params st args kwargs hb]; exact hlen
  · rcases hd : dictGet key st.cache with _ | r
    · rcases hf : f key with e | v
      · rw [callE005_miss_raise f params st args kwargs hb hd hf]; exact hlen
      · rw [callE005_miss_store f params st args kwargs hb hd hf hcap]
        simp only [evictIfFull]
        split
        · rename_i hfull
          simp [List.length_tail]
          have hpos : 1 ≤ st.cache.length := by omega
          omega
        · rename_i hnotfull
          simp
          omega
    · rw [callE005_hit f params st args kwargs hb hd]; exact hlen

theorem runOps_length_le (f : CacheKey V → Except E V) (params : List (Param V)) :
    ∀ (ops : List (CacheOp V)) (st : CacheState V),
      1 ≤ st.maxCacheSize → (st.cache.length : Int) ≤ st.maxCacheSize →
      ((runOps f params st ops).cache.length : Int) ≤ st.maxCacheSize := by
  intro ops
  induction ops with
  | nil => intro st _ h2; exact h2
  | cons op rest ih =>
      intro st h1 h2
      cases op with
      | clear =>
          have h3 := ih (clearCache st) (by simpa [clearCache] using h1)
            (by simp [clearCache]; omega)
          simp only [runOps]
          simpa [clearCache] using h3
      | call args kwargs =>
          have hmax := callE005_max_eq f params st args kwargs
          have hstep := callE005_length_le f params st args kwargs h1 h2
          have h3 := ih (callE005 f params st args kwargs).state
            (by rw [hmax]; exact h1) (by rw [hmax]; exact hstep)
          simp only [runOps]
          rw [hmax] at h3
          exact h3

theorem callE005_miss_store_nonempty (f : CacheKey V → Except E V)
    (params : List (Param V)) (st : CacheState V) (args : List V)
    (kwargs : List (String × V)) {key : CacheKey V} {v : V}
    (h : bindCall params args kwargs = .ok key)
    (h2 : dictGet key st.cache = none)
    (h3 : f key = .ok v)
    (hne : st.cache ≠ []) :
    callE005 f params st args kwargs
      = ⟨.ok v,
         { st with
            misses := st.misses + 1
            cache := evictIfFull st.maxCacheSize st.cache ++ [(key, v)] },
         true⟩ := by
  simp only [callE005, h, h2, h3]
  by_cases hfull : (st.cache.length : Int) ≥ st.maxCacheSize
  · cases hc : st.cache with
    | nil => exact absurd hc hne
    | cons p rest =>
        simp [evictIfFull, hfull]
        split <;> simp_all
  · simp [evictIfFull, hfull]

theorem mem_of_mem_evictIfFull {m : Int} {l : List (CacheKey V × V)}
    {q : CacheKey V × V} (hq : q ∈ evictIfFull m l) : q ∈ l := by
  unfold evictIfFull at hq
  split at hq
  · exact List.mem_of_mem_tail hq
  · exact hq

theorem coherent_callE005 (E : Type) (g : CacheKey V → V) (params : List (Param V))
    (st : CacheState V) (args : List V) (kwargs : List (String × V))
    (h : Coherent g st) :
    Coherent g (callE005 (pureFun E g) params st args kwargs).state := by
  rcases hb : bindCall params args kwargs with e | key
  · rw [callE005_bindError (pureFun E g) params st args kwargs hb]
    exact h
  · rcases hd : dictGet key st.cache with _ | r
    · have hf : pureFun E g key = Except.ok (g key) := rfl
      have hstore : ∀ q, q ∈ evictIfFull st.maxCacheSize st.cache ++ [(key, g key)] →
          q.2 = g q.1 := by
        intro q hq
        rcases List.mem_append.mp hq with hq1 | hq2
        · exact h q (mem_of_mem_evictIfFull hq1)
        · have : q = (key, g key) := by simpa using hq2
          rw [this]
      by_cases hcap : 1 ≤ st.maxCacheSize
      · rw [callE005_miss_store (pureFun E g) params st args kwargs hb hd hf hcap]
        exact hstore
      · cases hc : st.cache with
        | nil =>
            rw [callE005_miss_empty_overflow (pureFun E g) params st args kwargs hb hf
              hc (by omega)]
            exact h
        | cons p rest =>
            rw [callE005_miss_store_nonempty (pureFun E g) params st args kwargs hb hd
              hf (by rw [hc]; simp)]
            exact hstore
    · rw [callE005_hit (pureFun E g) params st args kwargs hb hd]
      exact h

theorem coherent_runCalls (E : Type) (g : CacheKey V → V) (params : List (Param V)) :
    ∀ (calls : List (List V × List (String × V))) (st : CacheState V),
      Coherent g st → Coherent g (runCalls (pureFun E g) params st calls) := by
  intro calls
  induction calls with
  | nil => intro st h; exact h
  | cons c rest ih =>
      intro st h
      obtain ⟨args, kwargs⟩ := c
      rw [runCalls]
      exact ih _ (coherent_callE005 E g params st args kwargs h)

theorem callE005_pure_result (E : Type) (g : CacheKey V → V) (params : List (Param V))
    (st : CacheState V) (args : List V) (kwargs : List (String × V))
    (h : Coherent g st) (hcap : 1 ≤ st.maxCacheSize) :
    (callE005 (pureFun E g) params st args kwargs).result
      = specDirectCall g params args kwargs := by
  rcases hb : bindCall params args kwargs with e | key
  · rw [callE005_bindError (pureFun E g) params st args kwargs hb]
    simp [specDirectCall, hb]
  · rcases hd : dictGet key st.cache with _ | r
    · have hf : pureFun E g key = Except.ok (g key) := rfl
      rw [callE005_miss_store (pureFun E g) params st args kwargs hb hd hf hcap]
      simp [specDirectCall, hb]
    · rw [callE005_hit (pureFun E g) params st args kwargs hb hd]
      have hr : r = g key := h _ (dictGet_some_mem hd)
      simp [specDirectCall, hb, hr]

/-- Claim C9: refinement — for a pure computation, capacity ≥ 1, and any
sequence of prior calls from a fresh decorator, the next call through the
wrapper returns exactly what the computation returns when applied
directly to the call's effective bound arguments; caching (hits,
insertions, evictions) never changes the value handed to the caller. -/
theorem c9_cached_call_equals_direct_call (E : Type) (g : CacheKey V → V)
    (params : List (Param V)) (maxSize : Int) (hcap : 1 ≤ maxSize)
    (calls : List (List V × List (String × V)))
    (args : List V) (kwargs : List (String × V)) :
    (callE005 (pureFun E g) params
        (runCalls (pureFun E g) params (initState maxSize) calls) args kwargs).result
      = specDirectCall g params args kwargs := by
  have hco : Coherent g (runCalls (pureFun E g) params (initState maxSize) calls) :=
    coherent_runCalls E g params calls (initState maxSize)
      (fun p hp => by simp [initState] at hp)
  have hmax := runCalls_max_eq (pureFun E g) params calls (initState maxSize)
  exact callE005_pure_result E g params _ args kwargs hco (by rw [hmax]; exact hcap)

/-- Witness for C9 at a concrete input: after `square(2)`, `square(3)`,
`square(4)` with capacity 2 (which evicted the entry for 2), calling
`square(2)` again still returns exactly the direct result. -/
theorem c9_witness :
    (callE005 (pureFun Unit squarePure) squareParams
        (runCalls (pureFun Unit squarePure) squareParams (initState 2)
          [([2], []), ([3], []), ([4], [])]) [2] []).result
      = specDirectCall squarePure squareParams [2] [] :=
  c9_cached_call_equals_direct_call Unit squarePure squareParams 2 (by decide)
    [([2], []), ([3], []), ([4], [])] [2] []

theorem runCalls_pure_fifo (E : Type) (g : CacheKey V → V) (params : List (Param V))
    (maxSize : Int) (hmax : 1 ≤ maxSize) :
    ∀ (keys : List (CacheKey V)) (calls : List (List V × List (String × V)))
      (ctx : List (CacheKey V)) (hits misses : Nat),
      calls.map (fun c => bindCall params c.1 c.2) = keys.map Except.ok →
      (ctx ++ keys).Nodup →
      (ctx.length : Int) ≤ maxSize →
      runCalls (pureFun E g) params
        ⟨ctx.map (fun k2 => (k2, g k2)), maxSize, hits, misses⟩ calls
        = ⟨((ctx ++ keys).drop ((ctx ++ keys).length - maxSize.toNat)).map
              (fun k2 => (k2, g k2)),
           maxSize, hits, misses + keys.length⟩ := by
  intro keys
  induction keys with
  | nil =>
      intro calls ctx hits misses hbind hnodup hlen
      have hcalls : calls = [] := by
        cases calls with
        | nil => rfl
        | cons c cs => simp at hbind
      subst hcalls
      have hdrop : ctx.length - maxSize.toNat = 0 := by omega
      simp [runCalls, hdrop]
  | cons k krest ih =>
      intro calls ctx hits misses hbind hnodup hlen
      cases calls with
      | nil => simp at hbind
      | cons c cs =>
          obtain ⟨args, kwargs⟩ := c
          simp only [List.map_cons, List.cons.injEq] at hbind
          obtain ⟨hc, hcs⟩ := hbind
          have hsplit := List.nodup_append.mp hnodup
          have hknotin : k ∉ ctx := fun hk =>
            hsplit.2.2 hk (List.mem_cons_self k krest)
          have hd : dictGet k (ctx.map (fun k2 => (k2, g k2))) = none :=
            dictGet_map_of_not_mem g hknotin
          have hf : pureFun E g k = Except.ok (g k) := rfl
          have hstep := callE005_miss_store (pureFun E g) params
            ⟨ctx.map (fun k2 => (k2, g k2)), maxSize, hits, misses⟩ args kwargs
            hc hd hf hmax
          rw [runCalls, hstep]
          by_cases hfull : ((ctx.length : Int) ≥ maxSize)
          · cases hctx : ctx with
            | nil =>
                exfalso
                rw [hctx] at hfull
                simp at hfull
                omega
            | cons p ctail =>
                subst hctx
                have hcond : (((p :: ctail).map (fun k2 => (k2, g k2))).length : Int)
                    ≥ maxSize := by simpa using hfull
                have hev : evictIfFull maxSize ((p :: ctail).map (fun k2 => (k2, g k2)))
                    ++ [(k, g k)] = (ctail ++ [k]).map (fun k2 => (k2, g k2)) := by
                  unfold evictIfFull
                  rw [if_pos hcond]
                  simp
                have happ : (ctail ++ [k]) ++ krest = ctail ++ k :: krest := by
                  rw [List.append_assoc]; rfl
                have hnodup1 : (p :: (ctail ++ k :: krest)).Nodup := hnodup
                have hnodup2 : ((ctail ++ [k]) ++ krest).Nodup := by
                  rw [happ]
                  exact (List.nodup_cons.mp hnodup1).2
                have hlen2 : (((ctail ++ [k]).length : Int)) ≤ maxSize := by
                  simp at hlen ⊢
                  omega
                simp only [hev]
                rw [ih cs (ctail ++ [k]) hits (misses + 1) hcs hnodup2 hlen2]
                rw [happ]
                have hccons : (p :: ctail) ++ k :: krest = p :: (ctail ++ k :: krest) := rfl
                rw [hccons]
                have hBA : (p :: (ctail ++ k :: krest)).length - maxSize.toNat
                    = ((ctail ++ k :: krest).length - maxSize.toNat) + 1 := by
                  simp at hfull ⊢
                  omega
                rw [hBA, List.drop_succ_cons]
                simp only [CacheState.mk.injEq]
                refine ⟨trivial, trivial, trivial, ?_⟩
                simp only [List.length_cons]
                omega
          · have hcond : ¬ (((ctx.map (fun k2 => (k2, g k2))).length : Int)
                ≥ maxSize) := by simpa using hfull
            have hev : evictIfFull maxSize (ctx.map (fun k2 => (k2, g k2)))
                ++ [(k, g k)] = (ctx ++ [k]).map (fun k2 => (k2, g k2)) := by
              unfold evictIfFull
              rw [if_neg hcond]
              simp
            have happ : (ctx ++ [k]) ++ krest = ctx ++ k :: krest := by
              rw [List.append_assoc]; rfl
            have hnodup2 : ((ctx ++ [k]) ++ krest).Nodup := by
              rw [happ]
              exact hnodup
            have hlen2 : (((ctx ++ [k]).length : Int)) ≤ maxSize := by
              simp at hlen ⊢
              omega
            simp only [hev]
            rw [ih cs (ctx ++ [k]) hits (misses + 1) hcs hnodup2 hlen2]
            rw [happ]
            simp only [CacheState.mk.injEq]
            refine ⟨trivial, trivial, trivial, ?_⟩
            simp only [List.length_cons]
            omega

/-- Claim C2: with capacity N ≥ 1 and N+1 calls from a fresh decorator
whose keys are pairwise distinct, exactly N entries remain in the store,
the store holds exactly the last N keys in insertion order (strict FIFO:
the single evicted entry is the first-inserted key), and a subsequent
call binding to the first key is a miss again that recomputes its
result. -/
theorem c2_overflow_evicts_oldest_fifo (E : Type) (g : CacheKey V → V)
    (params : List (Param V)) (N : Nat) (hN : 1 ≤ N)
    (k0 : CacheKey V) (krest : List (CacheKey V))
    (calls : List (List V × List (String × V)))
    (hbind : calls.map (fun c => bindCall params c.1 c.2)
        = (k0 :: krest).map Except.ok)
    (hnodup : (k0 :: krest).Nodup)
    (hlen : krest.length = N)
    (args : List V) (kw : List (String × V))
    (hk0 : bindCall params args kw = .ok k0) :
    (runCalls (pureFun E g) params (initState (N : Int)) calls).cache.length = N ∧
    (runCalls (pureFun E g) params (initState (N : Int)) calls).cache
      = krest.map (fun k2 => (k2, g k2)) ∧
    dictGet k0 (runCalls (pureFun E g) params (initState (N : Int)) calls).cache
      = none ∧
    (callE005 (pureFun E g) params
        (runCalls (pureFun E g) params (initState (N : Int)) calls) args kw).invoked
      = true ∧
    (callE005 (pureFun E g) params
        (runCalls (pureFun E g) params (initState (N : Int)) calls) args kw).result
      = .ok (g k0) := by
  have hmaxN : (1 : Int) ≤ (N : Int) := by exact_mod_cast hN
  have hrun := runCalls_pure_fifo E g params (N : Int) hmaxN (k0 :: krest) calls []
    0 0 hbind (by simpa using hnodup) (by simp)
  have hinit : (initState (N : Int) : CacheState V)
      = ⟨([] : List (CacheKey V)).map (fun k2 => (k2, g k2)), (N : Int), 0, 0⟩ := rfl
  have hdrop : ([] ++ k0 :: krest : List (CacheKey V)).length - ((N : Int)).toNat
      = 1 := by
    simp [hlen]
  rw [hinit, hrun, hdrop]
  have hdrop1 : (([] : List (CacheKey V)) ++ k0 :: krest).drop 1 = krest := by simp
  rw [hdrop1]
  have hk0notin : k0 ∉ krest := (List.nodup_cons.mp hnodup).1
  have hd : dictGet k0 (krest.map (fun k2 => (k2, g k2))) = none :=
    dictGet_map_of_not_mem g hk0notin
  have hf : pureFun E g k0 = Except.ok (g k0) := rfl
  have hfinal := callE005_miss_store (pureFun E g) params
    ⟨krest.map (fun k2 => (k2, g k2)), (N : Int), 0, 0 + (k0 :: krest).length⟩
    args kw hk0 hd hf hmaxN
  rw [hfinal]
  refine ⟨?_, rfl, hd, rfl, rfl⟩
  simp [hlen]

/-- Witness for C2 at the spec's worked example: capacity 2, `square`
called with 2, 3, 4 — two entries remain (for 3 and 4, in that order),
the key for 2 was evicted, and calling `square(2)` again is a miss that
recomputes 4. -/
theorem c2_witness :
    (runCalls (pureFun Unit squarePure) squareParams (initState 2)
        [([2], []), ([3], []), ([4], [])]).cache.length = 2 ∧
    (runCalls (pureFun Unit squarePure) squareParams (initState 2)
        [([2], []), ([3], []), ([4], [])]).cache
      = [[("x", 3)], [("x", 4)]].map (fun k2 => (k2, squarePure k2)) ∧
    dictGet [("x", 2)]
      (runCalls (pureFun Unit squarePure) squareParams (initState 2)
        [([2], []), ([3], []), ([4], [])]).cache = none ∧
    (callE005 (pureFun Unit squarePure) squareParams
        (runCalls (pureFun Unit squarePure) squareParams (initState 2)
          [([2], []), ([3], []), ([4], [])]) [2] []).invoked = true ∧
    (callE005 (pureFun Unit squarePure) squareParams
        (runCalls (pureFun Unit squarePure) squareParams (initState 2)
          [([2], []), ([3], []), ([4], [])]) [2] []).result
      = .ok (squarePure [("x", 2)]) :=
  c2_overflow_evicts_oldest_fifo Unit squarePure squareParams 2 (by decide)
    [("x", 2)] [[("x", 3)], [("x", 4)]]
    [([2], []), ([3], []), ([4], [])] rfl (by decide) rfl [2] [] rfl

/-- Claim C5: with capacity ≥ 1 and the store initially within capacity,
after any sequence of operations — calls (hits, misses with insertion,
misses with eviction, raising computations, binding failures) and
`clear_cache` — the number of entries in the store never exceeds the
configured `max_cache_size`. -/
theorem c5_size_bounded_by_capacity (f : CacheKey V → Except E V)
    (params : List (Param V)) (st : CacheState V) (ops : List (CacheOp V))
    (hcap : 1 ≤ st.maxCacheSize)
    (hlen : (st.cache.length : Int) ≤ st.maxCacheSize) :
    ((runOps f params st ops).cache.length : Int) ≤ st.maxCacheSize :=
  runOps_length_le f params ops st hcap hlen

/-- Witness for C5 at a concrete input: capacity 2 and a burst of five
`square` calls with three distinct arguments, a clear, and two more
calls; the store size stays at or below 2. -/
theorem c5_witness :
    ((runOps squareFun squareParams (initState 2)
        [.call [2] [], .call [2] [], .call [3] [], .call [4] [], .call [2] [],
         .clear, .call [5] [], .call [6] []]).cache.length : Int) ≤ 2 :=
  c5_size_bounded_by_capacity squareFun squareParams (initState 2)
    [.call [2] [], .call [2] [], .call [3] [], .call [4] [], .call [2] [],
     .clear, .call [5] [], .call [6] []] (by decide) (by decide)

end CacheDec
